import Mathlib

/-!
Verification of the `WebStorage` utility class
(`src/classes/web-storage-service.class.ts`).

The development shallowly embeds the class and the host primitives it calls:

* JavaScript runtime values that can flow through `setKey`/`getKey` are the
  inductive `JSVal`: JSON primitives, plain arrays, plain objects, and the two
  container types the class special-cases, `Map` (`vmap`) and `Set` (`vset`).
  Plain objects and maps are modelled as insertion-ordered association lists
  with string keys; numbers are modelled as integers (the integral doubles for
  which the host's decimal rendering is exact); strings are Unicode scalar
  sequences (`String`), so UTF-16 surrogate-half corner cases are out of scope.
* `JSON.stringify` (called by `setKey` with no replacer argument) is
  `jsonStringify`: a character-level serializer.  A `Map` or `Set` instance has
  no own enumerable properties, so the host serializes it as `\x7b\x7d`; the
  model mirrors that in the `vmap`/`vset` cases.
* `JSON.parse` (called by `getKey` with no reviver argument) is `jsonParse`: a
  character-level recursive-descent parser returning `none` exactly where the
  host parser throws a `SyntaxError`.  The numeric grammar is restricted to the
  integer part (no fraction/exponent forms), matching the integer number model.
* The two storage backends (`localStorage`, `sessionStorage`) are insertion
  ordered lists of key/text entries implementing the Web Storage interface
  (`getItem`, `setItem`, `removeItem`, `clear`, `length`, `key`).
-/

/-! ### JavaScript values -/

mutual

inductive JSVal : Type where
  | vnull : JSVal
  | vbool (b : Bool) : JSVal
  | vnum (n : Int) : JSVal
  | vstr (s : String) : JSVal
  | varr (xs : JSList) : JSVal
  | vobj (fs : JSMembers) : JSVal
  | vmap (fs : JSMembers) : JSVal
  | vset (xs : JSList) : JSVal
deriving DecidableEq

inductive JSList : Type where
  | nil : JSList
  | cons (hd : JSVal) (tl : JSList) : JSList
deriving DecidableEq

inductive JSMembers : Type where
  | nil : JSMembers
  | cons (k : String) (v : JSVal) (tl : JSMembers) : JSMembers
deriving DecidableEq

end

/-! ### Character helpers -/

/-- JSON insignificant whitespace: space, tab, line feed, carriage return. -/
def isWsChar (c : Char) : Bool :=
  c = ' ' || c = Char.ofNat 9 || c = Char.ofNat 10 || c = Char.ofNat 13

def skipWs : List Char → List Char
  | [] => []
  | c :: rest => if isWsChar c then skipWs rest else c :: rest

def isDigitChar (c : Char) : Bool :=
  48 ≤ c.toNat && c.toNat ≤ 57

/-- Decimal digit character for a value below 10. -/
def digitChar (n : Nat) : Char := Char.ofNat (48 + n)

/-- Lowercase hexadecimal digit character, as emitted by the host's
`\u00xx` escapes. -/
def hexDigitChar (n : Nat) : Char :=
  if n < 10 then Char.ofNat (48 + n) else Char.ofNat (87 + n)

/-- Value of a hexadecimal digit character (either case), or `none`. -/
def hexVal (c : Char) : Option Nat :=
  if 48 ≤ c.toNat ∧ c.toNat ≤ 57 then some (c.toNat - 48)
  else if 97 ≤ c.toNat ∧ c.toNat ≤ 102 then some (c.toNat - 87)
  else if 65 ≤ c.toNat ∧ c.toNat ≤ 70 then some (c.toNat - 55)
  else none

/-! ### Serializer: model of `JSON.stringify` (no replacer) -/

/-- String-character escaping performed by the host serializer: quote and
backslash, the five short control escapes, `\u00xx` for the remaining control
characters, and every other character verbatim. -/
def escChar (c : Char) : List Char :=
  if c = '\"' then ['\\', '\"']
  else if c = '\\' then ['\\', '\\']
  else if c = Char.ofNat 8 then ['\\', 'b']
  else if c = Char.ofNat 9 then ['\\', 't']
  else if c = Char.ofNat 10 then ['\\', 'n']
  else if c = Char.ofNat 12 then ['\\', 'f']
  else if c = Char.ofNat 13 then ['\\', 'r']
  else if c.toNat < 32 then
    ['\\', 'u', '0', '0', hexDigitChar (c.toNat / 16), hexDigitChar (c.toNat % 16)]
  else [c]

def escList : List Char → List Char
  | [] => []
  | c :: cs => escChar c ++ escList cs

/-- Big-endian decimal digits of a positive number; `fuel ≥ n` suffices. -/
def natToCharsAux : Nat → Nat → List Char
  | 0, _ => []
  | fuel + 1, n => if n = 0 then [] else natToCharsAux fuel (n / 10) ++ [digitChar (n % 10)]

def natToChars (n : Nat) : List Char :=
  if n = 0 then ['0'] else natToCharsAux (n + 1) n

/-- Decimal rendering of an integer, as the host renders integral doubles. -/
def intToChars (n : Int) : List Char :=
  if n < 0 then '-' :: natToChars n.natAbs else natToChars n.natAbs

mutual

/-- Model of `JSON.stringify(value)` as called by `setKey` (no replacer, no
indent): `Map` and `Set` instances have no own enumerable properties, so they
serialize as empty objects. -/
def stringifyVal : JSVal → List Char
  | .vnull => 'n' :: 'u' :: 'l' :: 'l' :: []
  | .vbool true => 't' :: 'r' :: 'u' :: 'e' :: []
  | .vbool false => 'f' :: 'a' :: 'l' :: 's' :: 'e' :: []
  | .vnum n => intToChars n
  | .vstr s => '\"' :: escList s.data ++ ['\"']
  | .varr xs => '[' :: stringifyElems xs ++ [']']
  | .vobj fs => Char.ofNat 123 :: stringifyMembers fs ++ [Char.ofNat 125]
  | .vmap _ => Char.ofNat 123 :: Char.ofNat 125 :: []
  | .vset _ => Char.ofNat 123 :: Char.ofNat 125 :: []

def stringifyElems : JSList → List Char
  | .nil => []
  | .cons v tl => stringifyVal v ++ stringifyElemsRest tl

def stringifyElemsRest : JSList → List Char
  | .nil => []
  | .cons v tl => ',' :: stringifyVal v ++ stringifyElemsRest tl

def stringifyMembers : JSMembers → List Char
  | .nil => []
  | .cons k v tl => '\"' :: escList k.data ++ '\"' :: ':' :: stringifyVal v ++ stringifyMembersRest tl

def stringifyMembersRest : JSMembers → List Char
  | .nil => []
  | .cons k v tl => ',' :: '\"' :: escList k.data ++ '\"' :: ':' :: stringifyVal v ++ stringifyMembersRest tl

end

def jsonStringify (v : JSVal) : String := String.mk (stringifyVal v)

/-! ### Parser: model of `JSON.parse` (no reviver) -/

def consStr (c : Char) : Option (List Char × List Char) → Option (List Char × List Char)
  | some (cs, r) => some (c :: cs, r)
  | none => none

/-- Parses the body of a JSON string after the opening quote, up to and
including the closing quote; returns the decoded characters and the remaining
input.  Unescaped control characters are a syntax error. -/
def parseStrBody : List Char → Option (List Char × List Char)
  | [] => none
  | c :: rest =>
    if c = '\"' then some ([], rest)
    else if c = '\\' then
      match rest with
      | [] => none
      | e :: r =>
        if e = '\"' then consStr '\"' (parseStrBody r)
        else if e = '\\' then consStr '\\' (parseStrBody r)
        else if e = '/' then consStr '/' (parseStrBody r)
        else if e = 'b' then consStr (Char.ofNat 8) (parseStrBody r)
        else if e = 'f' then consStr (Char.ofNat 12) (parseStrBody r)
        else if e = 'n' then consStr (Char.ofNat 10) (parseStrBody r)
        else if e = 'r' then consStr (Char.ofNat 13) (parseStrBody r)
        else if e = 't' then consStr (Char.ofNat 9) (parseStrBody r)
        else if e = 'u' then
          match r with
          | h1 :: h2 :: h3 :: h4 :: r2 =>
            match hexVal h1, hexVal h2, hexVal h3, hexVal h4 with
            | some a, some b, some c2, some d =>
                consStr (Char.ofNat (4096 * a + 256 * b + 16 * c2 + d)) (parseStrBody r2)
            | _, _, _, _ => none
          | _ => none
        else none
    else if c.toNat < 32 then none
    else consStr c (parseStrBody rest)

/-- Greedily consumes decimal digits, extending the accumulator. -/
def takeDigitsAcc : Nat → List Char → Nat × List Char
  | acc, [] => (acc, [])
  | acc, c :: rest =>
    if isDigitChar c then takeDigitsAcc (10 * acc + (c.toNat - 48)) rest
    else (acc, c :: rest)

/-- Unsigned integer token of the JSON number grammar: a single `0`, or a
nonzero digit followed by further digits (no leading zeros). -/
def parseNatTok : List Char → Option (Nat × List Char)
  | [] => none
  | c :: rest =>
    if c = '0' then some (0, rest)
    else if isDigitChar c then some (takeDigitsAcc (c.toNat - 48) rest)
    else none

/-- Property update used for object literals: a duplicated key keeps its first
position and receives the later value, as the host parser builds objects. -/
def insertMember : JSMembers → String → JSVal → JSMembers
  | .nil, k, v => .cons k v .nil
  | .cons k2 v2 tl, k, v =>
      if k2 = k then .cons k v tl else .cons k2 v2 (insertMember tl k v)

def buildObj : JSMembers → JSMembers → JSMembers
  | acc, .nil => acc
  | acc, .cons k v tl => buildObj (insertMember acc k v) tl

mutual

/-- One JSON value, preceded by optional whitespace; `fuel` bounds the nesting
depth (structural recursion).  Returns the value and the unconsumed input. -/
def parseVal : Nat → List Char → Option (JSVal × List Char)
  | 0, _ => none
  | fuel + 1, l =>
    match skipWs l with
    | [] => none
    | c :: rest =>
      if c = 'n' then
        match rest with
        | 'u' :: 'l' :: 'l' :: r => some (.vnull, r)
        | _ => none
      else if c = 't' then
        match rest with
        | 'r' :: 'u' :: 'e' :: r => some (.vbool true, r)
        | _ => none
      else if c = 'f' then
        match rest with
        | 'a' :: 'l' :: 's' :: 'e' :: r => some (.vbool false, r)
        | _ => none
      else if c = '\"' then
        match parseStrBody rest with
        | some (cs, r) => some (.vstr (String.mk cs), r)
        | none => none
      else if c = '[' then
        match skipWs rest with
        | [] => none
        | c2 :: r2 =>
          if c2 = ']' then some (.varr .nil, r2)
          else
            match parseElems fuel (c2 :: r2) with
            | some (xs, r) => some (.varr xs, r)
            | none => none
      else if c = Char.ofNat 123 then
        match skipWs rest with
        | [] => none
        | c2 :: r2 =>
          if c2 = Char.ofNat 125 then some (.vobj .nil, r2)
          else
            match parseMembers fuel (c2 :: r2) with
            | some (ms, r) => some (.vobj (buildObj .nil ms), r)
            | none => none
      else if c = '-' then
        match parseNatTok rest with
        | some (m, r) => some (.vnum (-(m : Int)), r)
        | none => none
      else
        match parseNatTok (c :: rest) with
        | some (m, r) => some (.vnum (m : Int), r)
        | none => none

/-- Nonempty comma-separated element list of an array literal, up to and
including the closing bracket. -/
def parseElems : Nat → List Char → Option (JSList × List Char)
  | 0, _ => none
  | fuel + 1, l =>
    match parseVal fuel l with
    | some (v, r) =>
      (match skipWs r with
       | [] => none
       | c :: r2 =>
         if c = ',' then
           match parseElems fuel r2 with
           | some (xs, r3) => some (.cons v xs, r3)
           | none => none
         else if c = ']' then some (.cons v .nil, r2)
         else none)
    | none => none

/-- Nonempty comma-separated member list of an object literal, up to and
including the closing brace, in source order (no duplicate-key handling; the
caller folds `insertMember` over the result). -/
def parseMembers : Nat → List Char → Option (JSMembers × List Char)
  | 0, _ => none
  | fuel + 1, l =>
    match skipWs l with
    | [] => none
    | c :: rest =>
      if c = '\"' then
        match parseStrBody rest with
        | some (kcs, r1) =>
          (match skipWs r1 with
           | [] => none
           | c2 :: r2 =>
             if c2 = ':' then
               match parseVal fuel r2 with
               | some (v, r3) =>
                 (match skipWs r3 with
                  | [] => none
                  | c3 :: r4 =>
                    if c3 = ',' then
                      match parseMembers fuel r4 with
                      | some (ms, r5) => some (.cons (String.mk kcs) v ms, r5)
                      | none => none
                    else if c3 = Char.ofNat 125 then
                      some (.cons (String.mk kcs) v .nil, r4)
                    else none)
               | none => none
             else none)
        | none => none
      else none

end

/-- Model of `JSON.parse(text)` as called by `getKey` (no reviver): `none`
models a thrown `SyntaxError`.  The input length bounds the nesting depth, so
`length + 1` units of fuel are always sufficient. -/
def jsonParse (s : String) : Option JSVal :=
  match parseVal (s.length + 1) s.data with
  | some (v, rest) => if skipWs rest = [] then some v else none
  | none => none

/-! ### Web Storage backends -/

def lookupEntry : List (String × String) → String → Option String
  | [], _ => none
  | (k, v) :: tl, key => if k = key then some v else lookupEntry tl key

def putEntry : List (String × String) → String → String → List (String × String)
  | [], key, val => [(key, val)]
  | (k, v) :: tl, key, val =>
      if k = key then (key, val) :: tl else (k, v) :: putEntry tl key val

def dropEntry : List (String × String) → String → List (String × String)
  | [], _ => []
  | (k, v) :: tl, key => if k = key then dropEntry tl key else (k, v) :: dropEntry tl key

/-- One storage backend (`localStorage` or `sessionStorage`): an insertion
ordered list of key/text entries with unique keys. -/
structure StorageBackend : Type where
  entries : List (String × String)
deriving DecidableEq

def StorageBackend.getItem (s : StorageBackend) (key : String) : Option String :=
  lookupEntry s.entries key

def StorageBackend.setItem (s : StorageBackend) (key val : String) : StorageBackend :=
  ⟨putEntry s.entries key val⟩

def StorageBackend.removeItem (s : StorageBackend) (key : String) : StorageBackend :=
  ⟨dropEntry s.entries key⟩

def StorageBackend.clear (_ : StorageBackend) : StorageBackend := ⟨[]⟩

def StorageBackend.size (s : StorageBackend) : Nat := s.entries.length

def StorageBackend.keyAt (s : StorageBackend) (i : Nat) : Option String :=
  (s.entries.get? i).map Prod.fst

/-- The pair of backends visible to the class. -/
structure WebState : Type where
  localStorage : StorageBackend
  sessionStorage : StorageBackend
deriving DecidableEq

/-- Backend selection `inSession ? sessionStorage : localStorage`. -/
def selectBackend (st : WebState) (inSession : Bool) : StorageBackend :=
  if inSession then st.sessionStorage else st.localStorage

def emptyState : WebState := ⟨⟨[]⟩, ⟨[]⟩⟩

/-! ### The `WebStorage` class -/

namespace WebStorage

/-- `isParseable(value)`: `try \x7b JSON.parse(value); return true \x7d catch
\x7b return false \x7d`.  The model of a thrown `SyntaxError` is `none`, so the
catch branch is the `none` case. -/
def isParseable (value : String) : Bool :=
  match jsonParse value with
  | some _ => true
  | none => false

/-- `setKey(key, value, inSession)`: stringifies the value (no replacer
argument is passed) and stores the text in the selected backend.  The JS
default for `inSession` is `false`. -/
def setKey (st : WebState) (key : String) (value : JSVal) (inSession : Bool) : WebState :=
  let stringifiedValue : String := jsonStringify value
  if inSession then ⟨st.localStorage, st.sessionStorage.setItem key stringifiedValue⟩
  else ⟨st.localStorage.setItem key stringifiedValue, st.sessionStorage⟩

/-- `getKey(key, inSession)`: reads the raw text; `if (!item) return null`
(true for both an absent item and the empty string); then
`isParseable(item) ? JSON.parse(item) : item`. -/
def getKey (st : WebState) (key : String) (inSession : Bool) : JSVal :=
  let storage := selectBackend st inSession
  match storage.getItem key with
  | none => .vnull
  | some item =>
    if item = "" then .vnull
    else
      match jsonParse item with
      | some v => v
      | none => .vstr item

/-- `removeKey(key, inSession)`: removes the entry from the selected
backend. -/
def removeKey (st : WebState) (key : String) (inSession : Bool) : WebState :=
  if inSession then ⟨st.localStorage, st.sessionStorage.removeItem key⟩
  else ⟨st.localStorage.removeItem key, st.sessionStorage⟩

/-- `clearAll(inSession)`: clears the selected backend. -/
def clearAll (st : WebState) (inSession : Bool) : WebState :=
  if inSession then ⟨st.localStorage, st.sessionStorage.clear⟩
  else ⟨st.localStorage.clear, st.sessionStorage⟩

/-- `currentLength(inSession)`: entry count of the selected backend. -/
def currentLength (st : WebState) (inSession : Bool) : Nat :=
  (selectBackend st inSession).size

/-- `getKeyNameByIndex(index, inSession)`: key name at the given position of
the selected backend, or null. -/
def getKeyNameByIndex (st : WebState) (index : Nat) (inSession : Bool) : Option String :=
  (selectBackend st inSession).keyAt index

/-- `replacer(key, value)`: rewrites a `Map` into
`\x7b __type: "Map", value: Object.fromEntries(value) \x7d` (a plain object of
its entries) and a `Set` into `\x7b __type: "Set", value: Array.from(value) \x7d`
(a plain array of its elements); everything else passes through. -/
def replacer (_key : String) (value : JSVal) : JSVal :=
  match value with
  | .vmap fs => .vobj (.cons ("__type") (.vstr ("Map")) (.cons ("value") (.vobj fs) .nil))
  | .vset xs => .vobj (.cons ("__type") (.vstr ("Set")) (.cons ("value") (.varr xs) .nil))
  | v => v

end WebStorage

/-! ### Helpers for the reviver: `value?.__type` access and the `Map`/`Set`
constructors -/

def lookupMember : JSMembers → String → Option JSVal
  | .nil, _ => none
  | .cons k v tl, key => if k = key then some v else lookupMember tl key

/-- Optional-chained property access `value?.prop`: an own property of a plain
object, `none` (undefined) for every other value (primitives, arrays, and
`Map`/`Set` instances carry no such own property). -/
def getProp (value : JSVal) (prop : String) : Option JSVal :=
  match value with
  | .vobj fs => lookupMember fs prop
  | _ => none

/-- SameValueZero equality as observable on decoded values: value equality on
primitives; composite values are distinct fresh references. -/
def elemEqSVZ : JSVal → JSVal → Bool
  | .vnull, .vnull => true
  | .vbool a, .vbool b => a = b
  | .vnum a, .vnum b => a = b
  | .vstr a, .vstr b => a = b
  | _, _ => false

def memElemSVZ : JSList → JSVal → Bool
  | .nil, _ => false
  | .cons v tl, x => elemEqSVZ v x || memElemSVZ tl x

/-- Deduplication performed by the `Set` constructor (first occurrence wins). -/
def dedupElems : JSList → JSList
  | .nil => .nil
  | .cons v tl => if memElemSVZ (dedupElems tl) v then dedupElems tl else .cons v (dedupElems tl)

def dedupElemsKeepFirst : JSList → JSList → JSList
  | _, .nil => .nil
  | seen, .cons v tl =>
      if memElemSVZ seen v then dedupElemsKeepFirst seen tl
      else .cons v (dedupElemsKeepFirst (.cons v seen) tl)

/-- Iterating a string yields its characters as one-character strings. -/
def jsStringElems : List Char → JSList
  | [] => .nil
  | c :: cs => .cons (.vstr (String.mk [c])) (jsStringElems cs)

/-- Iterating a `Map` yields its `[key, value]` entry arrays. -/
def mapEntriesList : JSMembers → JSList
  | .nil => .nil
  | .cons k v tl => .cons (.varr (.cons (.vstr k) (.cons v .nil))) (mapEntriesList tl)

/-- `new Set(x)`: empty for `undefined`/`null`, the deduplicated elements of an
iterable (array, string, `Set`, `Map` entries), and a `TypeError` (`none`) for
any non-iterable argument — in particular a plain object. -/
def jsNewSet : Option JSVal → Option JSVal
  | none => some (.vset .nil)
  | some .vnull => some (.vset .nil)
  | some (.varr xs) => some (.vset (dedupElemsKeepFirst .nil xs))
  | some (.vset xs) => some (.vset xs)
  | some (.vmap fs) => some (.vset (mapEntriesList fs))
  | some (.vstr s) => some (.vset (dedupElemsKeepFirst .nil (jsStringElems s.data)))
  | some _ => none

/-- Entry arrays of an iterable turned into map members, last key wins in
first position, as the `Map` constructor inserts.  Modelled for entries that
are `[string, value]` arrays (possibly with ignored extra components); other
entry shapes are outside the modelled value universe. -/
def entryPairs : JSList → Option JSMembers
  | .nil => some .nil
  | .cons (.varr (.cons (.vstr k) (.cons v _))) tl =>
      match entryPairs tl with
      | some ms => some (.cons k v ms)
      | none => none
  | .cons _ _ => none

/-- `new Map(x)`: empty for `undefined`/`null`, entry insertion for an
iterable of entry arrays, and a `TypeError` (`none`) for a non-iterable
argument — in particular a plain object, the shape `replacer` produces. -/
def jsNewMap : Option JSVal → Option JSVal
  | none => some (.vmap .nil)
  | some .vnull => some (.vmap .nil)
  | some (.varr xs) =>
      (match entryPairs xs with
       | some ms => some (.vmap (buildObj .nil ms))
       | none => none)
  | some (.vmap fs) => some (.vmap fs)
  | some (.vset xs) =>
      (match entryPairs xs with
       | some ms => some (.vmap (buildObj .nil ms))
       | none => none)
  | some (.vstr s) => if s = "" then some (.vmap .nil) else none
  | some _ => none

namespace WebStorage

/-- `reviver(key, value)`: `switch (value?.__type)` with cases `"Set"` (then
`new Set(value?.value)`) and `"Map"` (then `new Map(value?.value)`); `none`
models a thrown `TypeError` from those constructors. -/
def reviver (_key : String) (value : JSVal) : Option JSVal :=
  match getProp value ("__type") with
  | some (.vstr t) =>
      if t = "Set" then jsNewSet (getProp value ("value"))
      else if t = "Map" then jsNewMap (getProp value ("value"))
      else some value
  | _ => some value

end WebStorage

/-! ### JSON-representable values -/

def memberKeys : JSMembers → List String
  | .nil => []
  | .cons k _ tl => k :: memberKeys tl

def keysUnique : JSMembers → Bool
  | .nil => true
  | .cons k _ tl => !((memberKeys tl).contains k) && keysUnique tl

mutual

/-- The plain JSON-representable values: primitives, arrays and objects of
such values, with the unique keys every plain object has — no `Map` or `Set`
anywhere. -/
def jsonRep : JSVal → Bool
  | .vnull => true
  | .vbool _ => true
  | .vnum _ => true
  | .vstr _ => true
  | .varr xs => jsonRepList xs
  | .vobj fs => keysUnique fs && jsonRepMembers fs
  | .vmap _ => false
  | .vset _ => false

def jsonRepList : JSList → Bool
  | .nil => true
  | .cons v tl => jsonRep v && jsonRepList tl

def jsonRepMembers : JSMembers → Bool
  | .nil => true
  | .cons _ v tl => jsonRep v && jsonRepMembers tl

end

/-! ### Auxiliary definitions for the proofs -/

/-- Accumulator step for one consumed decimal digit. -/
def digitStep (acc : Nat) (c : Char) : Nat := 10 * acc + (c.toNat - 48)

/-- No input remains, or the next character is not a digit: exactly where the
greedy digit scan stops. -/
def noDigitHead : List Char → Bool
  | [] => true
  | c :: _ => !(isDigitChar c)

mutual

/-- Node count of a value: the fuel needed by the parser on its serialized
form. -/
def nodesV : JSVal → Nat
  | .vnull => 1
  | .vbool _ => 1
  | .vnum _ => 1
  | .vstr _ => 1
  | .varr xs => nodesL xs + 1
  | .vobj fs => nodesM fs + 1
  | .vmap _ => 1
  | .vset _ => 1

def nodesL : JSList → Nat
  | .nil => 0
  | .cons v tl => nodesV v + nodesL tl + 1

def nodesM : JSMembers → Nat
  | .nil => 0
  | .cons _ v tl => nodesV v + nodesM tl + 1

end

def memAppend : JSMembers → JSMembers → JSMembers
  | .nil, ms => ms
  | .cons k v tl, ms => .cons k v (memAppend tl ms)

/-- Concrete nested JSON-representable value used by the C1 witness. -/
def sampleC1 : JSVal :=
  .vobj (.cons ("a") (.vnum (-12))
    (.cons ("b") (.varr (.cons .vnull (.cons (.vstr ("x\ny")) (.cons (.vbool true) .nil))))
      (.cons ("c") (.vobj .nil) .nil)))

/-! ### Character facts -/

theorem charOfNat_toNat {n : Nat} (h : n < 55296) : (Char.ofNat n).toNat = n := by
  have hv : n.isValidChar := Or.inl h
  unfold Char.ofNat
  rw [dif_pos hv]
  rfl

theorem char_eq_iff_toNat {c d : Char} : c = d ↔ c.toNat = d.toNat := by
  constructor
  · intro h; rw [h]
  · intro h
    have h1 := Char.ofNat_toNat c
    have h2 := Char.ofNat_toNat d
    rw [← h1, ← h2, h]

theorem char_ne_of_toNat_lit {c d : Char} {m : Nat} (hd : d.toNat = m) (h : c.toNat ≠ m) :
    c ≠ d := by
  intro he
  rw [char_eq_iff_toNat, hd] at he
  exact h he

theorem digitChar_toNat {m : Nat} (h : m < 10) : (digitChar m).toNat = 48 + m := by
  unfold digitChar
  exact charOfNat_toNat (by omega)

theorem isWsChar_false_of_ge {c : Char} (h : 33 ≤ c.toNat) : isWsChar c = false := by
  unfold isWsChar
  have h1 : c ≠ ' ' := char_ne_of_toNat_lit (m := 32) (by decide) (by omega)
  have h2 : c ≠ Char.ofNat 9 := char_ne_of_toNat_lit (m := 9) (by decide) (by omega)
  have h3 : c ≠ Char.ofNat 10 := char_ne_of_toNat_lit (m := 10) (by decide) (by omega)
  have h4 : c ≠ Char.ofNat 13 := char_ne_of_toNat_lit (m := 13) (by decide) (by omega)
  simp [h1, h2, h3, h4]

theorem skipWs_cons_of_ge {c : Char} (h : 33 ≤ c.toNat) (l : List Char) :
    skipWs (c :: l) = c :: l := by
  simp [skipWs, isWsChar_false_of_ge h]

theorem isDigitChar_iff {c : Char} :
    isDigitChar c = true ↔ 48 ≤ c.toNat ∧ c.toNat ≤ 57 := by
  simp [isDigitChar]

theorem isDigitChar_false {c : Char} (h : c.toNat < 48 ∨ 57 < c.toNat) :
    isDigitChar c = false := by
  simp only [isDigitChar, Bool.and_eq_false_iff, decide_eq_false_iff_not, not_le]
  omega

/-! ### Decimal digits round-trip -/

theorem natToCharsAux_zero (fuel : Nat) : natToCharsAux fuel 0 = [] := by
  cases fuel <;> simp [natToCharsAux]

theorem natToCharsAux_digits (fuel n : Nat) :
    ∀ c ∈ natToCharsAux fuel n, 48 ≤ c.toNat ∧ c.toNat ≤ 57 := by
  induction fuel generalizing n with
  | zero => simp [natToCharsAux]
  | succ fuel ih =>
    intro c hc
    by_cases hn : n = 0
    · simp [natToCharsAux, hn] at hc
    · simp only [natToCharsAux, if_neg hn, List.mem_append, List.mem_singleton] at hc
      rcases hc with hc | hc
      · exact ih _ c hc
      · subst hc
        rw [digitChar_toNat (by omega)]
        omega

theorem natToCharsAux_head (fuel n : Nat) (h1 : 1 ≤ n) (h2 : n ≤ fuel) :
    ∃ c cs, natToCharsAux fuel n = c :: cs ∧ 49 ≤ c.toNat ∧ c.toNat ≤ 57 := by
  induction fuel generalizing n with
  | zero => omega
  | succ fuel ih =>
    rw [natToCharsAux, if_neg (by omega)]
    by_cases h10 : n < 10
    · rw [Nat.div_eq_of_lt h10, natToCharsAux_zero, List.nil_append]
      exact ⟨digitChar (n % 10), [], rfl, by rw [digitChar_toNat (by omega)]; omega,
        by rw [digitChar_toNat (by omega)]; omega⟩
    · obtain ⟨c, cs, heq, hc1, hc2⟩ := ih (n / 10) (by omega) (by omega)
      exact ⟨c, cs ++ [digitChar (n % 10)], by rw [heq]; rfl, hc1, hc2⟩

theorem takeDigitsAcc_append {ds : List Char} (hds : ∀ c ∈ ds, isDigitChar c = true) :
    ∀ acc rest, takeDigitsAcc acc (ds ++ rest) = takeDigitsAcc (List.foldl digitStep acc ds) rest := by
  induction ds with
  | nil => intro acc rest; simp
  | cons c ds ih =>
    intro acc rest
    have hc : isDigitChar c = true := hds c (by simp)
    simp only [List.cons_append, takeDigitsAcc, hc, if_true, List.append_eq]
    rw [ih (fun d hd => hds d (by simp [hd]))]
    rfl

theorem takeDigitsAcc_stop {rest : List Char} (h : noDigitHead rest = true) (acc : Nat) :
    takeDigitsAcc acc rest = (acc, rest) := by
  cases rest with
  | nil => rfl
  | cons c l =>
    simp only [noDigitHead, Bool.not_eq_true'] at h
    simp [takeDigitsAcc, h]

theorem foldl_digitStep_natToCharsAux (fuel : Nat) :
    ∀ n : Nat, n ≤ fuel → ∀ acc,
      List.foldl digitStep acc (natToCharsAux fuel n)
        = acc * 10 ^ (natToCharsAux fuel n).length + n := by
  induction fuel with
  | zero =>
    intro n hn acc
    have : n = 0 := by omega
    subst this
    simp [natToCharsAux]
  | succ fuel ih =>
    intro n hn acc
    by_cases hz : n = 0
    · subst hz; simp [natToCharsAux]
    · have hih := ih (n / 10) (by omega)
      rw [natToCharsAux, if_neg hz, List.foldl_append, hih]
      simp only [List.foldl_cons, List.foldl_nil, List.length_append, List.length_cons,
        List.length_nil, digitStep, digitChar_toNat (Nat.mod_lt n (by omega))]
      have hstep : 48 + n % 10 - 48 = n % 10 := by omega
      rw [hstep, pow_succ]
      have := Nat.div_add_mod n 10
      set t := acc * 10 ^ (natToCharsAux fuel (n / 10)).length with ht
      ring_nf
      omega

theorem hexVal_hexDigitChar : ∀ m : Nat, m < 16 → hexVal (hexDigitChar m) = some m := by
  decide

theorem parseStrBody_escList : ∀ (cs rest : List Char),
    parseStrBody (escList cs ++ '\"' :: rest) = some (cs, rest) := by
  intro cs
  induction cs with
  | nil =>
    intro rest
    show parseStrBody ('\"' :: rest) = some ([], rest)
    unfold parseStrBody
    simp +decide
  | cons c cs ih =>
    intro rest
    show parseStrBody (escChar c ++ escList cs ++ '\"' :: rest) = some (c :: cs, rest)
    by_cases h1 : c = '\"'
    · subst h1; simp only [escChar, if_true, ite_true, List.cons_append, List.nil_append]
      unfold parseStrBody
      simp +decide [ih, consStr]
    by_cases h2 : c = '\\'
    · subst h2; simp +decide only [escChar, List.cons_append, List.nil_append]
      unfold parseStrBody
      simp +decide [ih, consStr]
    by_cases h3 : c = Char.ofNat 8
    · subst h3; simp +decide only [escChar, List.cons_append, List.nil_append]
      unfold parseStrBody
      simp +decide [ih, consStr]
    by_cases h4 : c = Char.ofNat 9
    · subst h4; simp +decide only [escChar, List.cons_append, List.nil_append]
      unfold parseStrBody
      simp +decide [ih, consStr]
    by_cases h5 : c = Char.ofNat 10
    · subst h5; simp +decide only [escChar, List.cons_append, List.nil_append]
      unfold parseStrBody
      simp +decide [ih, consStr]
    by_cases h6 : c = Char.ofNat 12
    · subst h6; simp +decide only [escChar, List.cons_append, List.nil_append]
      unfold parseStrBody
      simp +decide [ih, consStr]
    by_cases h7 : c = Char.ofNat 13
    · subst h7; simp +decide only [escChar, List.cons_append, List.nil_append]
      unfold parseStrBody
      simp +decide [ih, consStr]
    by_cases h8 : c.toNat < 32
    · have hdiv : c.toNat / 16 < 16 := by omega
      have hmod : c.toNat % 16 < 16 := by omega
      simp only [escChar, h1, h2, h3, h4, h5, h6, h7, h8, if_false, if_true, ite_false, ite_true,
        List.cons_append, List.nil_append]
      unfold parseStrBody
      simp +decide only [List.append_eq, if_true, if_false, ite_true, ite_false]
      rw [hexVal_hexDigitChar _ hdiv, hexVal_hexDigitChar _ hmod]
      have h0 : hexVal ('0') = some 0 := by decide
      rw [h0]
      show consStr (Char.ofNat (4096 * 0 + 256 * 0 + 16 * (c.toNat / 16) + c.toNat % 16))
        (parseStrBody (escList cs ++ '\"' :: rest)) = some (c :: cs, rest)
      have harg : 4096 * 0 + 256 * 0 + 16 * (c.toNat / 16) + c.toNat % 16 = c.toNat := by omega
      rw [harg, Char.ofNat_toNat, ih]
      rfl
    · simp only [escChar, h1, h2, h3, h4, h5, h6, h7, h8, if_false, ite_false,
        List.cons_append, List.nil_append]
      unfold parseStrBody
      simp only [h1, h2, h8, List.append_eq, if_false, ite_false]
      rw [ih]
      rfl

theorem parseNatTok_natToChars (n : Nat) (rest : List Char) (h : noDigitHead rest = true) :
    parseNatTok (natToChars n ++ rest) = some (n, rest) := by
  by_cases hz : n = 0
  · subst hz
    simp [natToChars, parseNatTok, takeDigitsAcc_stop h]
  · obtain ⟨c, cs, heq, hc1, hc2⟩ := natToCharsAux_head (n + 1) n (by omega) (by omega)
    have hdigits := natToCharsAux_digits (n + 1) n
    rw [heq] at hdigits
    have hfold : List.foldl digitStep 0 (c :: cs) = n := by
      have := foldl_digitStep_natToCharsAux (n + 1) n (by omega) 0
      rw [heq] at this
      simpa using this
    rw [natToChars, if_neg hz, heq]
    have hc0 : c ≠ '0' := char_ne_of_toNat_lit (m := 48) (by decide) (by omega)
    have hcd : isDigitChar c = true := isDigitChar_iff.mpr ⟨by omega, hc2⟩
    simp only [List.cons_append, parseNatTok, hc0, if_neg, if_pos, hcd, ite_false, ite_true]
    have hcs : ∀ d ∈ cs, isDigitChar d = true := by
      intro d hd
      have := hdigits d (by simp [hd])
      exact isDigitChar_iff.mpr this
    rw [takeDigitsAcc_append hcs, takeDigitsAcc_stop h]
    have : List.foldl digitStep (c.toNat - 48) cs = n := by
      have h0 : digitStep 0 c = c.toNat - 48 := by simp [digitStep]
      rw [← h0]
      simpa using hfold
    rw [this]

/-! ### Size measure and structural facts about the serializer -/

theorem nodesV_pos (v : JSVal) : 1 ≤ nodesV v := by
  cases v <;> simp only [nodesV] <;> omega

/-- Every serialized value starts with a printable character that is not a
closing bracket, so the whitespace skip and the end-of-array test of the parser
act trivially on it. -/
theorem stringify_head (v : JSVal) :
    ∃ c cs, stringifyVal v = c :: cs ∧ 33 ≤ c.toNat ∧ c.toNat ≠ 93 := by
  cases v with
  | vnull => exact ⟨'n', _, rfl, by decide, by decide⟩
  | vbool b =>
    cases b with
    | true => exact ⟨'t', _, rfl, by decide, by decide⟩
    | false => exact ⟨'f', _, rfl, by decide, by decide⟩
  | vnum n =>
    show ∃ c cs, intToChars n = c :: cs ∧ 33 ≤ c.toNat ∧ c.toNat ≠ 93
    unfold intToChars
    by_cases hn : n < 0
    · exact ⟨'-', _, by rw [if_pos hn], by decide, by decide⟩
    · rw [if_neg hn]
      unfold natToChars
      by_cases hz : n.natAbs = 0
      · exact ⟨'0', [], by rw [if_pos hz], by decide, by decide⟩
      · rw [if_neg hz]
        obtain ⟨c, cs, heq, h1, h2⟩ :=
          natToCharsAux_head (n.natAbs + 1) n.natAbs (by omega) (by omega)
        exact ⟨c, cs, heq, by omega, by omega⟩
  | vstr s => exact ⟨'\"', _, rfl, by decide, by decide⟩
  | varr xs => exact ⟨'[', _, rfl, by decide, by decide⟩
  | vobj fs => exact ⟨Char.ofNat 123, _, rfl, by decide, by decide⟩
  | vmap fs => exact ⟨Char.ofNat 123, _, rfl, by decide, by decide⟩
  | vset xs => exact ⟨Char.ofNat 123, _, rfl, by decide, by decide⟩

/-! ### Object reconstruction with unique keys -/

theorem memAppend_nil : ∀ ms : JSMembers, memAppend ms .nil = ms
  | .nil => rfl
  | .cons k v tl => by simp [memAppend, memAppend_nil tl]

theorem memAppend_assoc : ∀ a : JSMembers, ∀ b c : JSMembers,
    memAppend (memAppend a b) c = memAppend a (memAppend b c)
  | .nil, _, _ => rfl
  | .cons k v tl, b, c => by simp [memAppend, memAppend_assoc tl b c]

theorem insertMember_fresh : ∀ (acc : JSMembers) (k : String) (v : JSVal),
    k ∉ memberKeys acc → insertMember acc k v = memAppend acc (.cons k v .nil)
  | .nil, _, _, _ => rfl
  | .cons k2 v2 tl, k, v, h => by
    have hk2 : k2 ≠ k := by
      intro he; subst he; exact h (by simp [memberKeys])
    simp only [insertMember, if_neg hk2, memAppend]
    rw [insertMember_fresh tl k v (fun hm => h (by simp [memberKeys, hm]))]

theorem memberKeys_memAppend : ∀ a b : JSMembers,
    memberKeys (memAppend a b) = memberKeys a ++ memberKeys b
  | .nil, _ => rfl
  | .cons k v tl, b => by simp [memAppend, memberKeys, memberKeys_memAppend tl b]

theorem buildObj_eq_append : ∀ (ms acc : JSMembers), keysUnique ms = true →
    (∀ x ∈ memberKeys acc, x ∉ memberKeys ms) → buildObj acc ms = memAppend acc ms
  | .nil, acc, _, _ => by rw [memAppend_nil]; rfl
  | .cons k v tl, acc, hu, hdisj => by
    simp only [keysUnique, Bool.and_eq_true, Bool.not_eq_true'] at hu
    obtain ⟨hk, hutl⟩ := hu
    have hktl : k ∉ memberKeys tl := by simpa using hk
    have hkacc : k ∉ memberKeys acc := by
      intro hm
      exact hdisj k hm (by simp [memberKeys])
    show buildObj (insertMember acc k v) tl = memAppend acc (.cons k v tl)
    rw [buildObj_eq_append tl (insertMember acc k v) hutl ?_,
      insertMember_fresh acc k v hkacc, memAppend_assoc]
    · rfl
    · intro x hx
      rw [insertMember_fresh acc k v hkacc, memberKeys_memAppend] at hx
      simp only [List.mem_append, memberKeys, List.mem_singleton] at hx
      rcases hx with hx | hx
      · intro hxtl
        exact hdisj x hx (by simp [memberKeys, hxtl])
      · subst hx; exact hktl

theorem buildObj_self {ms : JSMembers} (hu : keysUnique ms = true) : buildObj .nil ms = ms :=
  buildObj_eq_append ms .nil hu (by simp [memberKeys])

mutual

theorem nodesV_le_len : ∀ v : JSVal, nodesV v ≤ (stringifyVal v).length
  | .vnull => by simp [nodesV, stringifyVal]
  | .vbool b => by cases b <;> simp [nodesV, stringifyVal]
  | .vnum n => by
    obtain ⟨c, cs, heq, -, -⟩ := stringify_head (.vnum n)
    simp only [nodesV, heq, List.length_cons]
    omega
  | .vstr s => by simp [nodesV, stringifyVal]
  | .varr xs => by
    have h := nodesL_le_elems xs
    simp only [nodesV, stringifyVal, List.length_cons, List.length_append]
    omega
  | .vobj fs => by
    have h := nodesM_le_members fs
    simp only [nodesV, stringifyVal, List.length_cons, List.length_append]
    omega
  | .vmap _ => by simp [nodesV, stringifyVal]
  | .vset _ => by simp [nodesV, stringifyVal]

theorem nodesL_le_elems : ∀ xs : JSList, nodesL xs ≤ (stringifyElems xs).length + 1
  | .nil => by simp [nodesL, stringifyElems]
  | .cons v tl => by
    have h1 := nodesV_le_len v
    have h2 := nodesL_le_rest tl
    simp only [nodesL, stringifyElems, List.length_append]
    omega

theorem nodesL_le_rest : ∀ xs : JSList, nodesL xs ≤ (stringifyElemsRest xs).length
  | .nil => by simp [nodesL, stringifyElemsRest]
  | .cons v tl => by
    have h1 := nodesV_le_len v
    have h2 := nodesL_le_rest tl
    simp only [nodesL, stringifyElemsRest, List.length_cons, List.length_append]
    omega

theorem nodesM_le_members : ∀ fs : JSMembers, nodesM fs ≤ (stringifyMembers fs).length + 1
  | .nil => by simp [nodesM, stringifyMembers]
  | .cons k v tl => by
    have h1 := nodesV_le_len v
    have h2 := nodesM_le_rest tl
    simp only [nodesM, stringifyMembers, List.length_cons, List.length_append]
    omega

theorem nodesM_le_rest : ∀ fs : JSMembers, nodesM fs ≤ (stringifyMembersRest fs).length
  | .nil => by simp [nodesM, stringifyMembersRest]
  | .cons k v tl => by
    have h1 := nodesV_le_len v
    have h2 := nodesM_le_rest tl
    simp only [nodesM, stringifyMembersRest, List.length_cons, List.length_append]
    omega

end

/-! ### The parser inverts the serializer -/

theorem parse_stringify (fuel : Nat) :
    (∀ (v : JSVal) (rest : List Char), jsonRep v = true → nodesV v ≤ fuel →
      noDigitHead rest = true →
      parseVal fuel (stringifyVal v ++ rest) = some (v, rest)) ∧
    (∀ (v : JSVal) (tl : JSList) (rest : List Char),
      jsonRep v = true → jsonRepList tl = true → nodesV v + nodesL tl + 1 ≤ fuel →
      parseElems fuel (stringifyVal v ++ (stringifyElemsRest tl ++ ']' :: rest))
        = some (.cons v tl, rest)) ∧
    (∀ (k : String) (v : JSVal) (tl : JSMembers) (rest : List Char),
      jsonRep v = true → jsonRepMembers tl = true → nodesV v + nodesM tl + 1 ≤ fuel →
      parseMembers fuel
          ('\"' :: (escList k.data ++ '\"' :: ':' :: (stringifyVal v
            ++ (stringifyMembersRest tl ++ Char.ofNat 125 :: rest))))
        = some (.cons k v tl, rest)) := by
  induction fuel with
  | zero =>
    refine ⟨?_, ?_, ?_⟩
    · intro v rest _ hfuel _
      have := nodesV_pos v
      omega
    · intro v tl rest _ _ hfuel
      omega
    · intro k v tl rest _ _ hfuel
      omega
  | succ fuel ih =>
    obtain ⟨ihA, ihB, ihC⟩ := ih
    refine ⟨?_, ?_, ?_⟩
    · intro v rest hrep hfuel hrest
      cases v with
      | vnull =>
        simp only [stringifyVal, List.cons_append, List.nil_append]
        simp only [parseVal]
        rw [skipWs_cons_of_ge (by decide)]
        simp +decide
      | vbool b =>
        cases b with
        | true =>
          simp only [stringifyVal, List.cons_append, List.nil_append]
          simp only [parseVal]
          rw [skipWs_cons_of_ge (by decide)]
          simp +decide
        | false =>
          simp only [stringifyVal, List.cons_append, List.nil_append]
          simp only [parseVal]
          rw [skipWs_cons_of_ge (by decide)]
          simp +decide
      | vnum n =>
        by_cases hneg : n < 0
        · have hs : stringifyVal (.vnum n) = '-' :: natToChars n.natAbs := by
            simp [stringifyVal, intToChars, hneg]
          rw [hs]
          simp only [List.cons_append]
          simp only [parseVal]
          rw [skipWs_cons_of_ge (by decide)]
          simp +decide only [if_true, if_false, ite_true, ite_false]
          rw [parseNatTok_natToChars n.natAbs rest hrest]
          show some (JSVal.vnum (-((n.natAbs : Nat) : Int)), rest) = some (JSVal.vnum n, rest)
          have harg : -((n.natAbs : Nat) : Int) = n := by omega
          rw [harg]
        · by_cases hz : n.natAbs = 0
          · have hn0 : n = 0 := by omega
            subst hn0
            have hs : stringifyVal (.vnum 0) = '0' :: [] := by
              simp [stringifyVal, intToChars, natToChars]
            rw [hs]
            simp only [List.cons_append, List.nil_append]
            simp only [parseVal]
            rw [skipWs_cons_of_ge (by decide)]
            simp +decide [parseNatTok]
          · have hs : stringifyVal (.vnum n) = natToChars n.natAbs := by
              simp [stringifyVal, intToChars, hneg]
            have hpn := parseNatTok_natToChars n.natAbs rest hrest
            obtain ⟨c, cs, heq, h49, h57⟩ :=
              natToCharsAux_head (n.natAbs + 1) n.natAbs (by omega) (by omega)
            have heq2 : natToChars n.natAbs = c :: cs := by
              rw [natToChars, if_neg hz]; exact heq
            rw [heq2] at hpn
            rw [hs, heq2]
            simp only [List.cons_append] at hpn ⊢
            simp only [parseVal]
            rw [skipWs_cons_of_ge (by omega)]
            have hc1 : c ≠ 'n' := char_ne_of_toNat_lit (m := 110) (by decide) (by omega)
            have hc2 : c ≠ 't' := char_ne_of_toNat_lit (m := 116) (by decide) (by omega)
            have hc3 : c ≠ 'f' := char_ne_of_toNat_lit (m := 102) (by decide) (by omega)
            have hc4 : c ≠ '\"' := char_ne_of_toNat_lit (m := 34) (by decide) (by omega)
            have hc5 : c ≠ '[' := char_ne_of_toNat_lit (m := 91) (by decide) (by omega)
            have hc6 : c ≠ Char.ofNat 123 := char_ne_of_toNat_lit (m := 123) (by decide) (by omega)
            have hc7 : c ≠ '-' := char_ne_of_toNat_lit (m := 45) (by decide) (by omega)
            simp only [hc1, hc2, hc3, hc4, hc5, hc6, hc7, if_false, ite_false]
            rw [hpn]
            show some (JSVal.vnum ((n.natAbs : Nat) : Int), rest) = some (JSVal.vnum n, rest)
            have harg : ((n.natAbs : Nat) : Int) = n := by omega
            rw [harg]
      | vstr s =>
        simp only [stringifyVal, List.cons_append, List.append_assoc, List.singleton_append]
        simp only [parseVal]
        rw [skipWs_cons_of_ge (by decide)]
        simp +decide only [if_true, if_false, ite_true, ite_false]
        rw [parseStrBody_escList]
        simp
      | varr xs =>
        cases xs with
        | nil =>
          simp only [stringifyVal, stringifyElems, List.nil_append, List.cons_append,
            List.singleton_append]
          simp only [parseVal]
          rw [skipWs_cons_of_ge (by decide)]
          simp +decide only [if_true, if_false, ite_true, ite_false]
          rw [skipWs_cons_of_ge (by decide)]
          simp +decide
        | cons v tl =>
          have hrep' : jsonRep v = true ∧ jsonRepList tl = true := by
            simpa [jsonRep, jsonRepList, Bool.and_eq_true] using hrep
          have hfuel' : nodesV v + nodesL tl + 1 ≤ fuel := by
            simp only [nodesV, nodesL] at hfuel
            omega
          have hB := ihB v tl rest hrep'.1 hrep'.2 hfuel'
          obtain ⟨c, cs, hvhead, hge, hne93⟩ := stringify_head v
          simp only [stringifyVal, stringifyElems, List.cons_append, List.append_assoc,
            List.singleton_append, List.nil_append]
          simp only [parseVal]
          rw [skipWs_cons_of_ge (by decide)]
          simp +decide only [if_true, if_false, ite_true, ite_false]
          rw [hvhead]
          simp only [List.cons_append]
          rw [skipWs_cons_of_ge hge]
          have hc : c ≠ ']' := char_ne_of_toNat_lit (m := 93) (by decide) hne93
          simp only [hc, if_false, ite_false]
          rw [hvhead] at hB
          simp only [List.cons_append] at hB
          rw [hB]
      | vobj fs =>
        cases fs with
        | nil =>
          simp only [stringifyVal, stringifyMembers, List.nil_append, List.cons_append,
            List.singleton_append]
          simp only [parseVal]
          rw [skipWs_cons_of_ge (by decide)]
          simp +decide only [if_true, if_false, ite_true, ite_false]
          rw [skipWs_cons_of_ge (by decide)]
          simp +decide
        | cons k v tl =>
          have hku : keysUnique (.cons k v tl) = true := by
            have := hrep
            simp only [jsonRep, Bool.and_eq_true] at this
            exact this.1
          have hrv : jsonRep v = true ∧ jsonRepMembers tl = true := by
            have := hrep
            simp only [jsonRep, jsonRepMembers, Bool.and_eq_true] at this
            exact this.2
          have hfuel' : nodesV v + nodesM tl + 1 ≤ fuel := by
            simp only [nodesV, nodesM] at hfuel
            omega
          have hC := ihC k v tl rest hrv.1 hrv.2 hfuel'
          simp only [stringifyVal, stringifyMembers, List.cons_append, List.append_assoc,
            List.singleton_append, List.nil_append]
          simp only [parseVal]
          rw [skipWs_cons_of_ge (by decide)]
          simp +decide only [if_true, if_false, ite_true, ite_false]
          rw [skipWs_cons_of_ge (by decide)]
          simp +decide only [if_true, if_false, ite_true, ite_false]
          rw [hC]
          show some (JSVal.vobj (buildObj .nil (.cons k v tl)), rest)
            = some (JSVal.vobj (.cons k v tl), rest)
          rw [buildObj_self hku]
      | vmap fs => simp [jsonRep] at hrep
      | vset xs => simp [jsonRep] at hrep
    · intro v tl rest hrv hrtl hfuel
      cases tl with
      | nil =>
        have hA := ihA v (']' :: rest) hrv
          (by simp only [nodesL] at hfuel; omega) (by simp +decide [noDigitHead])
        simp only [stringifyElemsRest, List.nil_append]
        simp only [parseElems]
        simp only [hA]
        rw [skipWs_cons_of_ge (by decide)]
        simp +decide
      | cons v2 tl2 =>
        have hndA : noDigitHead (stringifyElemsRest (.cons v2 tl2) ++ ']' :: rest) = true := by
          simp +decide [stringifyElemsRest, noDigitHead]
        have hA := ihA v (stringifyElemsRest (.cons v2 tl2) ++ ']' :: rest) hrv
          (by simp only [nodesL] at hfuel; omega) hndA
        have hrep2 : jsonRep v2 = true ∧ jsonRepList tl2 = true := by
          simpa [jsonRepList, Bool.and_eq_true] using hrtl
        have hB2 := ihB v2 tl2 rest hrep2.1 hrep2.2
          (by simp only [nodesL] at hfuel; have := nodesV_pos v; omega)
        simp only [parseElems]
        simp only [hA]
        simp only [stringifyElemsRest, List.cons_append, List.append_assoc]
        rw [skipWs_cons_of_ge (by decide)]
        simp +decide only [if_true, if_false, ite_true, ite_false]
        simp only [hB2]
    · intro k v tl rest hrv hrtl hfuel
      cases tl with
      | nil =>
        have hA := ihA v (Char.ofNat 125 :: rest) hrv
          (by simp only [nodesM] at hfuel; omega) (by simp +decide [noDigitHead])
        simp only [stringifyMembersRest, List.nil_append]
        simp only [parseMembers]
        rw [skipWs_cons_of_ge (by decide)]
        simp +decide only [if_true, if_false, ite_true, ite_false]
        rw [parseStrBody_escList]
        simp only []
        rw [skipWs_cons_of_ge (by decide)]
        simp +decide only [if_true, if_false, ite_true, ite_false]
        simp only [hA]
        rw [skipWs_cons_of_ge (by decide)]
        simp +decide
      | cons k2 v2 tl2 =>
        have hndA : noDigitHead (stringifyMembersRest (.cons k2 v2 tl2)
            ++ Char.ofNat 125 :: rest) = true := by
          simp +decide [stringifyMembersRest, noDigitHead]
        have hA := ihA v (stringifyMembersRest (.cons k2 v2 tl2) ++ Char.ofNat 125 :: rest) hrv
          (by simp only [nodesM] at hfuel; omega) hndA
        have hrep2 : jsonRep v2 = true ∧ jsonRepMembers tl2 = true := by
          simpa [jsonRepMembers, Bool.and_eq_true] using hrtl
        have hC2 := ihC k2 v2 tl2 rest hrep2.1 hrep2.2
          (by simp only [nodesM] at hfuel; have := nodesV_pos v; omega)
        simp only [parseMembers]
        rw [skipWs_cons_of_ge (by decide)]
        simp +decide only [if_true, if_false, ite_true, ite_false]
        rw [parseStrBody_escList]
        simp only []
        rw [skipWs_cons_of_ge (by decide)]
        simp +decide only [if_true, if_false, ite_true, ite_false]
        simp only [hA]
        simp only [stringifyMembersRest, List.cons_append, List.append_assoc]
        rw [skipWs_cons_of_ge (by decide)]
        simp +decide only [if_true, if_false, ite_true, ite_false]
        simp only [hC2]

/-- Round trip of the codec pair: parsing a serialized JSON-representable
value recovers it exactly. -/
theorem jsonParse_jsonStringify {v : JSVal} (h : jsonRep v = true) :
    jsonParse (jsonStringify v) = some v := by
  have hA := (parse_stringify ((stringifyVal v).length + 1)).1 v [] h
    (by have := nodesV_le_len v; omega) (by decide)
  rw [List.append_nil] at hA
  show (match parseVal ((stringifyVal v).length + 1) (stringifyVal v) with
    | some (w, rest) => if skipWs rest = [] then some w else none
    | none => none) = some v
  rw [hA]
  simp [skipWs]

theorem jsonStringify_ne_empty (v : JSVal) : jsonStringify v ≠ "" := by
  obtain ⟨c, cs, heq, -, -⟩ := stringify_head v
  unfold jsonStringify
  rw [heq]
  intro hcontra
  have := congrArg String.data hcontra
  simp at this

/-! ### Storage backend lemmas -/

theorem lookupEntry_putEntry_same : ∀ (l : List (String × String)) (k v : String),
    lookupEntry (putEntry l k v) k = some v
  | [], k, v => by simp [putEntry, lookupEntry]
  | (k2, v2) :: tl, k, v => by
    by_cases hk : k2 = k
    · subst hk; simp [putEntry, lookupEntry]
    · simp only [putEntry, if_neg hk, lookupEntry, hk, ite_false]
      exact lookupEntry_putEntry_same tl k v

theorem lookupEntry_dropEntry_same : ∀ (l : List (String × String)) (k : String),
    lookupEntry (dropEntry l k) k = none
  | [], k => rfl
  | (k2, v2) :: tl, k => by
    by_cases hk : k2 = k
    · subst hk; simp [dropEntry, lookupEntry_dropEntry_same tl]
    · simp [dropEntry, hk, lookupEntry, lookupEntry_dropEntry_same tl]

theorem mem_keys_putEntry : ∀ (l : List (String × String)) (k v : String),
    k ∈ (putEntry l k v).map Prod.fst
  | [], k, v => by simp [putEntry]
  | (k2, v2) :: tl, k, v => by
    by_cases hk : k2 = k
    · subst hk; simp [putEntry]
    · simp only [putEntry, if_neg hk, List.map_cons]
      exact List.mem_cons_of_mem _ (mem_keys_putEntry tl k v)

theorem keys_putEntry_mem : ∀ (l : List (String × String)) (k v : String),
    k ∈ l.map Prod.fst → (putEntry l k v).map Prod.fst = l.map Prod.fst
  | [], k, v, h => by simp at h
  | (k2, v2) :: tl, k, v, h => by
    by_cases hk : k2 = k
    · subst hk; simp [putEntry]
    · have htl : k ∈ tl.map Prod.fst := by
        simp only [List.map_cons, List.mem_cons] at h
        rcases h with h | h
        · exact absurd h.symm hk
        · exact h
      simp only [putEntry, if_neg hk, List.map_cons]
      rw [keys_putEntry_mem tl k v htl]

theorem length_putEntry_mem : ∀ (l : List (String × String)) (k v : String),
    k ∈ l.map Prod.fst → (putEntry l k v).length = l.length
  | [], k, v, h => by simp at h
  | (k2, v2) :: tl, k, v, h => by
    by_cases hk : k2 = k
    · subst hk; simp [putEntry]
    · have htl : k ∈ tl.map Prod.fst := by
        simp only [List.map_cons, List.mem_cons] at h
        rcases h with h | h
        · exact absurd h.symm hk
        · exact h
      simp only [putEntry, if_neg hk, List.length_cons]
      rw [length_putEntry_mem tl k v htl]

theorem keys_putEntry_not_mem : ∀ (l : List (String × String)) (k v : String),
    k ∉ l.map Prod.fst → (putEntry l k v).map Prod.fst = l.map Prod.fst ++ [k]
  | [], k, v, _ => by simp [putEntry]
  | (k2, v2) :: tl, k, v, h => by
    have hk : k2 ≠ k := by
      intro he; subst he; exact h (by simp)
    have htl : k ∉ tl.map Prod.fst := fun hm => h (by simp [hm])
    simp only [putEntry, if_neg hk, List.map_cons]
    rw [keys_putEntry_not_mem tl k v htl]
    simp

/-! ### Facade selection lemmas -/

theorem selectBackend_setKey_same (st : WebState) (k : String) (v : JSVal) (inSession : Bool) :
    selectBackend (WebStorage.setKey st k v inSession) inSession
      = (selectBackend st inSession).setItem k (jsonStringify v) := by
  cases inSession <;> simp [WebStorage.setKey, selectBackend]

theorem selectBackend_setKey_other (st : WebState) (k : String) (v : JSVal) (inSession : Bool) :
    selectBackend (WebStorage.setKey st k v inSession) (!inSession)
      = selectBackend st (!inSession) := by
  cases inSession <;> simp [WebStorage.setKey, selectBackend]

theorem selectBackend_removeKey_same (st : WebState) (k : String) (inSession : Bool) :
    selectBackend (WebStorage.removeKey st k inSession) inSession
      = (selectBackend st inSession).removeItem k := by
  cases inSession <;> simp [WebStorage.removeKey, selectBackend]

theorem selectBackend_clearAll_same (st : WebState) (inSession : Bool) :
    selectBackend (WebStorage.clearAll st inSession) inSession
      = (selectBackend st inSession).clear := by
  cases inSession <;> simp [WebStorage.clearAll, selectBackend]

/-- The central read-after-write fact: reading back a stored
JSON-representable value on the same backend recovers it. -/
theorem getKey_setKey_same (st : WebState) (k : String) (v : JSVal) (inSession : Bool)
    (h : jsonRep v = true) :
    WebStorage.getKey (WebStorage.setKey st k v inSession) k inSession = v := by
  unfold WebStorage.getKey
  rw [selectBackend_setKey_same]
  show (match (StorageBackend.setItem (selectBackend st inSession) k
      (jsonStringify v)).getItem k with
    | none => JSVal.vnull
    | some item =>
      if item = "" then JSVal.vnull
      else
        match jsonParse item with
        | some w => w
        | none => JSVal.vstr item) = v
  rw [show (StorageBackend.setItem (selectBackend st inSession) k
      (jsonStringify v)).getItem k = some (jsonStringify v) from
    lookupEntry_putEntry_same _ k (jsonStringify v)]
  show (if jsonStringify v = "" then JSVal.vnull
    else
      match jsonParse (jsonStringify v) with
      | some w => w
      | none => JSVal.vstr (jsonStringify v)) = v
  rw [if_neg (jsonStringify_ne_empty v), jsonParse_jsonStringify h]

/-! ### Claim theorems -/

/-- C1: for every JSON-representable value `v` (a number, string, boolean,
null, or nested plain object or array of such values — `jsonRep v`), storing
`v` with `setKey` and reading it back with `getKey` on the same backend
returns a value equal to `v`; equivalently `decode(encode(v)) = v`. -/
theorem C1_roundtrip (st : WebState) (k : String) (v : JSVal) (inSession : Bool)
    (h : jsonRep v = true) :
    WebStorage.getKey (WebStorage.setKey st k v inSession) k inSession = v
      ∧ jsonParse (jsonStringify v) = some v :=
  ⟨getKey_setKey_same st k v inSession h, jsonParse_jsonStringify h⟩

/-- Witness for C1 at a nested concrete value on the default backend. -/
theorem C1_roundtrip_witness :
    jsonRep sampleC1 = true
    ∧ (WebStorage.getKey (WebStorage.setKey emptyState ("k") sampleC1 false) ("k") false
          = sampleC1
      ∧ jsonParse (jsonStringify sampleC1) = some sampleC1) :=
  ⟨by decide, C1_roundtrip emptyState ("k") sampleC1 false (by decide)⟩

/-- C2 (code evaluation at the failing input): `setKey` stringifies without
the class's `replacer`, so a `Set` — top-level or nested — is serialized as
the empty-object text and comes back from `getKey` as an empty plain object,
not as a unique-value collection. -/
theorem C2_set_roundtrip_eval :
    jsonStringify (.vset (.cons (.vnum 1) (.cons (.vnum 2) (.cons (.vnum 3) .nil))))
        = "\x7b\x7d"
    ∧ WebStorage.getKey (WebStorage.setKey emptyState ("c")
        (.vset (.cons (.vnum 1) (.cons (.vnum 2) (.cons (.vnum 3) .nil)))) false) ("c") false
      = .vobj .nil
    ∧ WebStorage.getKey (WebStorage.setKey emptyState ("n")
        (.vobj (.cons ("s") (.vset (.cons (.vnum 1) .nil)) .nil)) false) ("n") false
      = .vobj (.cons ("s") (.vobj .nil) .nil) := by
  refine ⟨by decide, by decide, by decide⟩

/-- C3 (code evaluation at the failing input): the class's `replacer` tags a
`Map` with a plain-object payload (`Object.fromEntries`), not the array of
`[key, value]` pairs; its own `reviver` then throws a `TypeError` on exactly
that shape (`new Map` requires an iterable); and the actual `setKey`/`getKey`
path never invokes either, so a stored `Map` comes back as an empty plain
object. -/
theorem C3_map_roundtrip_eval :
    WebStorage.replacer ("") (.vmap (.cons ("a") (.vnum 1) (.cons ("b") (.vnum 2) .nil)))
      = .vobj (.cons ("__type") (.vstr ("Map"))
          (.cons ("value") (.vobj (.cons ("a") (.vnum 1) (.cons ("b") (.vnum 2) .nil))) .nil))
    ∧ WebStorage.reviver ("")
        (.vobj (.cons ("__type") (.vstr ("Map"))
          (.cons ("value") (.vobj (.cons ("a") (.vnum 1) (.cons ("b") (.vnum 2) .nil))) .nil)))
      = none
    ∧ WebStorage.getKey (WebStorage.setKey emptyState ("m")
        (.vmap (.cons ("a") (.vnum 1) (.cons ("b") (.vnum 2) .nil))) false) ("m") false
      = .vobj .nil := by
  refine ⟨by decide, by decide, by decide⟩

/-- C4 counterexample: the empty stored text is not valid serialized JSON,
yet `getKey` returns null for it, not the text itself — the claim fails as
universally stated. -/
theorem C4_counterexample :
    jsonParse "" = none
    ∧ WebStorage.getKey ⟨⟨[(("k"), (""))]⟩, ⟨[]⟩⟩ ("k") false = .vnull
    ∧ WebStorage.getKey ⟨⟨[(("k"), (""))]⟩, ⟨[]⟩⟩ ("k") false ≠ .vstr ("") := by
  refine ⟨by decide, by decide, by decide⟩

/-- C4 (amended): for every stored text that is non-empty and not
syntactically valid serialized JSON, `getKey` returns that text itself
unchanged as a plain string rather than throwing or returning null; the empty
stored text instead falls into the `!item` guard and yields null. -/
theorem C4_fallback (st : WebState) (k : String) (inSession : Bool) (s : String)
    (hit : (selectBackend st inSession).getItem k = some s)
    (hne : s ≠ "") (hp : jsonParse s = none) :
    WebStorage.getKey st k inSession = .vstr s := by
  simp [WebStorage.getKey, hit, hne, hp]

/-- Witness for C4 (amended) at the raw text `hello`. -/
theorem C4_fallback_witness :
    (selectBackend ⟨⟨[(("k"), ("hello"))]⟩, ⟨[]⟩⟩ false).getItem ("k") = some ("hello")
    ∧ ("hello" : String) ≠ ""
    ∧ jsonParse ("hello") = none
    ∧ WebStorage.getKey ⟨⟨[(("k"), ("hello"))]⟩, ⟨[]⟩⟩ ("k") false = .vstr ("hello") :=
  ⟨by decide, by decide, by decide,
    C4_fallback ⟨⟨[(("k"), ("hello"))]⟩, ⟨[]⟩⟩ ("k") false ("hello")
      (by decide) (by decide) (by decide)⟩

/-- C5: for every key with no entry in the selected backend (`getItem`
returns the null/absent value), `getKey` returns null. -/
theorem C5_missing_key (st : WebState) (k : String) (inSession : Bool)
    (h : (selectBackend st inSession).getItem k = none) :
    WebStorage.getKey st k inSession = .vnull := by
  simp [WebStorage.getKey, h]

/-- Witness for C5 on the empty state. -/
theorem C5_missing_key_witness :
    (selectBackend emptyState false).getItem ("missing-key") = none
    ∧ WebStorage.getKey emptyState ("missing-key") false = .vnull :=
  ⟨by decide, C5_missing_key emptyState ("missing-key") false (by decide)⟩

/-- C6: `isParseable` is a total function (the model of the try/catch
around `JSON.parse` never propagates an error), returning true exactly when
the parser accepts the text and false exactly when it raises a syntax error
(`jsonParse` returns `none`). -/
theorem C6_isParseable (s : String) :
    (WebStorage.isParseable s = true ↔ ∃ v, jsonParse s = some v)
      ∧ (WebStorage.isParseable s = false ↔ jsonParse s = none) := by
  unfold WebStorage.isParseable
  cases h : jsonParse s <;> simp [h]

/-- C7 counterexample: as universally quantified over all values `v`, the
claim fails — storing an (empty) `Set` in the session backend and reading the
same key back from the session backend yields an empty plain object, not the
`Set`. -/
theorem C7_counterexample :
    WebStorage.getKey (WebStorage.setKey emptyState ("k") (.vset .nil) true) ("k") true
        = .vobj .nil
    ∧ WebStorage.getKey (WebStorage.setKey emptyState ("k") (.vset .nil) true) ("k") true
        ≠ .vset .nil := by
  refine ⟨by decide, by decide⟩

/-- C7 (amended): the two backends are disjoint namespaces and every
operation touches only the backend selected by its `inSession` flag: for every
key `k` and JSON-representable value `v`, in a state where neither backend
holds `k`, `setKey(k, v, inSession := true)` followed by
`getKey(k, inSession := false)` returns null while `getKey(k, inSession :=
true)` returns `v`, and the entire state of the unselected backend is
unchanged by any set, remove, or clear call. -/
theorem C7_backend_isolation (st : WebState) (k k2 : String) (v v2 : JSVal)
    (hl : st.localStorage.getItem k = none) (_hs : st.sessionStorage.getItem k = none)
    (hrep : jsonRep v = true) :
    WebStorage.getKey (WebStorage.setKey st k v true) k false = .vnull
    ∧ WebStorage.getKey (WebStorage.setKey st k v true) k true = v
    ∧ (WebStorage.setKey st k2 v2 true).localStorage = st.localStorage
    ∧ (WebStorage.setKey st k2 v2 false).sessionStorage = st.sessionStorage
    ∧ (WebStorage.removeKey st k2 true).localStorage = st.localStorage
    ∧ (WebStorage.removeKey st k2 false).sessionStorage = st.sessionStorage
    ∧ (WebStorage.clearAll st true).localStorage = st.localStorage
    ∧ (WebStorage.clearAll st false).sessionStorage = st.sessionStorage := by
  refine ⟨?_, getKey_setKey_same st k v true hrep, rfl, rfl, rfl, rfl, rfl, rfl⟩
  simp [WebStorage.getKey, WebStorage.setKey, selectBackend, hl]

/-- Witness for C7 (amended) at `v = 1` on the empty state. -/
theorem C7_backend_isolation_witness :
    (emptyState.localStorage.getItem ("k") = none
      ∧ emptyState.sessionStorage.getItem ("k") = none
      ∧ jsonRep (.vnum 1) = true)
    ∧ WebStorage.getKey (WebStorage.setKey emptyState ("k") (.vnum 1) true) ("k") false = .vnull
    ∧ WebStorage.getKey (WebStorage.setKey emptyState ("k") (.vnum 1) true) ("k") true
        = .vnum 1 :=
  ⟨⟨by decide, by decide, by decide⟩,
    (C7_backend_isolation emptyState ("k") ("x") (.vnum 1) .vnull
      (by decide) (by decide) (by decide)).1,
    (C7_backend_isolation emptyState ("k") ("x") (.vnum 1) .vnull
      (by decide) (by decide) (by decide)).2.1⟩

/-- C8: keys are unique per backend and setting an existing key overwrites
its entry: after `setKey(k, 1)` then `setKey(k, 2)` on the same backend
(whose key list, as for any reachable backend state, has no duplicates),
`getKey(k)` returns `2`, `currentLength()` equals the length after the first
set, and the key list counts `k` exactly once. -/
theorem C8_overwrite (st : WebState) (k : String) (inSession : Bool)
    (hnd : ((selectBackend st inSession).entries.map Prod.fst).Nodup) :
    WebStorage.getKey (WebStorage.setKey (WebStorage.setKey st k (.vnum 1) inSession)
        k (.vnum 2) inSession) k inSession = .vnum 2
    ∧ WebStorage.currentLength (WebStorage.setKey (WebStorage.setKey st k (.vnum 1) inSession)
        k (.vnum 2) inSession) inSession
      = WebStorage.currentLength (WebStorage.setKey st k (.vnum 1) inSession) inSession
    ∧ ((selectBackend (WebStorage.setKey (WebStorage.setKey st k (.vnum 1) inSession)
        k (.vnum 2) inSession) inSession).entries.map Prod.fst).count k = 1 := by
  refine ⟨getKey_setKey_same _ k (.vnum 2) inSession (by decide), ?_, ?_⟩
  · unfold WebStorage.currentLength
    rw [selectBackend_setKey_same, selectBackend_setKey_same]
    unfold StorageBackend.size StorageBackend.setItem
    exact length_putEntry_mem _ k _ (mem_keys_putEntry _ k _)
  · rw [selectBackend_setKey_same, selectBackend_setKey_same]
    unfold StorageBackend.setItem
    rw [keys_putEntry_mem _ k _ (mem_keys_putEntry _ k _)]
    by_cases hmem : k ∈ (selectBackend st inSession).entries.map Prod.fst
    · rw [keys_putEntry_mem _ k _ hmem]
      exact List.count_eq_one_of_mem hnd hmem
    · rw [keys_putEntry_not_mem _ k _ hmem]
      rw [List.count_append, List.count_eq_zero_of_not_mem hmem]
      simp

/-- Witness for C8 on the empty backend state. -/
theorem C8_overwrite_witness :
    ((selectBackend emptyState false).entries.map Prod.fst).Nodup
    ∧ WebStorage.getKey (WebStorage.setKey (WebStorage.setKey emptyState ("k") (.vnum 1) false)
        ("k") (.vnum 2) false) ("k") false = .vnum 2
    ∧ WebStorage.currentLength (WebStorage.setKey (WebStorage.setKey emptyState ("k")
        (.vnum 1) false) ("k") (.vnum 2) false) false
      = WebStorage.currentLength (WebStorage.setKey emptyState ("k") (.vnum 1) false) false :=
  ⟨by decide, (C8_overwrite emptyState ("k") false (by decide)).1,
    (C8_overwrite emptyState ("k") false (by decide)).2.1⟩

/-- C9: after `removeKey(k)` on the selected backend `getKey(k)` returns
null (and `removeKey` is a total operation, succeeding also when no entry for
`k` exists); after `clearAll()` the selected backend's `currentLength()` is
`0`. -/
theorem C9_remove_clear (st : WebState) (k : String) (inSession : Bool) :
    WebStorage.getKey (WebStorage.removeKey st k inSession) k inSession = .vnull
    ∧ WebStorage.currentLength (WebStorage.clearAll st inSession) inSession = 0 := by
  constructor
  · unfold WebStorage.getKey
    rw [selectBackend_removeKey_same]
    simp [StorageBackend.getItem, StorageBackend.removeItem, lookupEntry_dropEntry_same]
  · unfold WebStorage.currentLength
    rw [selectBackend_clearAll_same]
    simp [StorageBackend.clear, StorageBackend.size]

/-- C10: an entry whose stored raw text is the empty string is
indistinguishable from a missing entry for `getKey`: the `!item` guard is
true for both, so `getKey` returns null. -/
theorem C10_empty_text (st : WebState) (k : String) (inSession : Bool)
    (h : (selectBackend st inSession).getItem k = some "") :
    WebStorage.getKey st k inSession = .vnull := by
  simp [WebStorage.getKey, h]

/-- Witness for C10 at a backend holding the entry `(k, "")`. -/
theorem C10_empty_text_witness :
    (selectBackend ⟨⟨[(("k"), (""))]⟩, ⟨[]⟩⟩ false).getItem ("k") = some ""
    ∧ WebStorage.getKey ⟨⟨[(("k"), (""))]⟩, ⟨[]⟩⟩ ("k") false = .vnull :=
  ⟨by decide, C10_empty_text ⟨⟨[(("k"), (""))]⟩, ⟨[]⟩⟩ ("k") false (by decide)⟩
